import Mathlib

set_option maxHeartbeats 1000000

/-!
A verification development for the DIGI receipt-OCR core: the OCR
orchestrator (hybrid mode, quality threshold, result scoring) and the
receipt parser (line classification, quantity/price extraction, name
cleaning, totals extraction), embedded shallowly over `List Char` tokens
and exact decimal/rational arithmetic.  The orchestrator follows the
Python of `enhanced_ocr_service.py` as printed in the repository's
documentation; the parser functions, whose Python source is not in the
snapshot, are modelled from the specification and marked as such.
-/

/-! ## Character utilities -/

/-- Whitespace test used by the tokenizer (space, tab, newline, carriage return). -/
def isWsCh (c : Char) : Bool := c == ' ' || c == '\t' || c == '\n' || c == '\r'

/-- ASCII digit test. -/
def isDigitCh (c : Char) : Bool := '0' ≤ c && c ≤ '9'

/-- ASCII letter test. -/
def isLetterCh (c : Char) : Bool := ('a' ≤ c && c ≤ 'z') || ('A' ≤ c && c ≤ 'Z')

/-- ASCII alphanumeric test. -/
def isAlnumCh (c : Char) : Bool := isDigitCh c || isLetterCh c

/-- The lower/upper pairs of the ASCII alphabet. -/
def caseTable : List (Char × Char) :=
  [('a','A'), ('b','B'), ('c','C'), ('d','D'), ('e','E'), ('f','F'), ('g','G'),
   ('h','H'), ('i','I'), ('j','J'), ('k','K'), ('l','L'), ('m','M'), ('n','N'),
   ('o','O'), ('p','P'), ('q','Q'), ('r','R'), ('s','S'), ('t','T'), ('u','U'),
   ('v','V'), ('w','W'), ('x','X'), ('y','Y'), ('z','Z')]

/-- ASCII upper-casing of a single character; non-letters are unchanged. -/
def upCh (c : Char) : Char :=
  match caseTable.find? (fun p => p.1 == c) with
  | some p => p.2
  | none => c

/-- ASCII lower-casing of a single character; non-letters are unchanged. -/
def lowCh (c : Char) : Char :=
  match caseTable.find? (fun p => p.2 == c) with
  | some p => p.1
  | none => c

/-! ## Tokenizer

A receipt line is tokenized on whitespace runs, exactly as Python's
`str.split()` does: empty tokens never appear.  The splitter is a
structural right fold, so it evaluates by `rfl`/`decide`. -/

/-- A token of a receipt line: its characters.  Never empty, never holds
whitespace. -/
abbrev Tok := List Char

/-- Push a pending word onto the token list unless it is empty. -/
def pushTok (cur : Tok) (out : List Tok) : List Tok :=
  if cur = [] then out else cur :: out

/-- One step of the whitespace splitter, consuming a character from the right. -/
def splitStep (c : Char) (st : Tok × List Tok) : Tok × List Tok :=
  if isWsCh c then ([], pushTok st.1 st.2) else (c :: st.1, st.2)

/-- Split a character list on whitespace runs into its (nonempty) tokens. -/
def splitWs (cs : List Char) : List Tok :=
  pushTok (cs.foldr splitStep ([], [])).1 (cs.foldr splitStep ([], [])).2

/-- Re-join tokens with single spaces. -/
def joinToks : List Tok → List Char
  | [] => []
  | [w] => w
  | w :: rest => w ++ ' ' :: joinToks rest

/-- Lower-cased view of a token, used by every case-insensitive check. -/
def lowTok (t : Tok) : Tok := t.map lowCh

/-- All characters of a token are digits. -/
def allDigits (t : Tok) : Bool := t.all isDigitCh

/-- Does `pat` occur as a prefix of `l`? -/
def startsWithSeq : List Char → List Char → Bool
  | [], _ => true
  | _ :: _, [] => false
  | p :: ps, c :: cs => p == c && startsWithSeq ps cs

/-- Does `pat` occur as a contiguous subsequence of the list? -/
def hasSubSeq (pat : List Char) : List Char → Bool
  | [] => startsWithSeq pat []
  | c :: rest => startsWithSeq pat (c :: rest) || hasSubSeq pat rest

/-! ## Exact decimals

All numbers a receipt carries are decimal literals; they are parsed into
an exact mantissa/scale pair whose rational value is `m / 10^s`. -/

/-- An exact decimal literal, of value `m / 10^s`. -/
structure Dec where
  m : Nat
  s : Nat
deriving DecidableEq

/-- The rational value of a parsed decimal. -/
def Dec.toRat (d : Dec) : ℚ := (d.m : ℚ) / 10 ^ d.s

/-- Numeric value of a digit token. -/
def natOf (t : Tok) : Nat := t.foldl (fun a c => a * 10 + (c.toNat - 48)) 0

/-- Parse a plain decimal numeral: digits with at most one fractional part. -/
def parseDecCore (cs : Tok) : Option Dec :=
  let ip := cs.takeWhile (fun c => !(c == '.'))
  let rest := cs.dropWhile (fun c => !(c == '.'))
  if (!ip.isEmpty) && allDigits ip then
    match rest with
    | [] => some ⟨natOf ip, 0⟩
    | _ :: fp =>
        if (!fp.isEmpty) && allDigits fp then
          some ⟨natOf ip * 10 ^ fp.length + natOf fp, fp.length⟩
        else none
  else none

/-- Strip a leading dollar sign from a token. -/
def dropDollar (t : Tok) : Tok :=
  match t with
  | '$' :: r => r
  | r => r

/-- Strip thousands-separator commas from a token. -/
def dropCommas (t : Tok) : Tok := t.filter (fun c => !(c == ','))

/-- Parse a money token: optional `$`, thousands-separator commas stripped
before numeric parsing. -/
def parseMoney (t : Tok) : Option Dec := parseDecCore (dropCommas (dropDollar t))

/-- Modelled from the spec: a "currency-shaped decimal token" — after an
optional `$` and comma stripping it is made of digits and dots, contains a
digit, and either carried the `$` or contains a decimal point (so a bare
integer token such as an item code is not price-shaped). -/
def currencyShaped (t : Tok) : Bool :=
  let core := dropCommas (dropDollar t)
  (!core.isEmpty)
    && core.all (fun c => isDigitCh c || c == '.')
    && core.any isDigitCh
    && ((t.head? == some '$') || core.any (fun c => c == '.'))

/-! ## Units and weight patterns -/

/-- The unit enumeration of the data model. -/
inductive UnitKind
  | count
  | kg
  | g
  | lb
  | oz
  | l
  | ml
deriving DecidableEq

/-- Weight/volume unit suffixes recognised in weight tokens. -/
def unitStrings : List (Tok × UnitKind) :=
  [("kg".data, .kg), ("g".data, .g), ("lb".data, .lb),
   ("oz".data, .oz), ("ml".data, .ml), ("l".data, .l)]

/-- Parse a `<decimal><unit>` token such as `0.778kg`. -/
def weightTokParse (t : Tok) : Option (Dec × UnitKind) :=
  let wd := t.takeWhile (fun c => isDigitCh c || c == '.')
  let sfx := lowTok (t.dropWhile (fun c => isDigitCh c || c == '.'))
  match parseDecCore wd with
  | none => none
  | some d =>
    match unitStrings.find? (fun p => p.1 == sfx) with
    | some p => some (d, p.2)
    | none => none

/-- The `NET` marker following a weight token (case-insensitive). -/
def isNetTok (t : Tok) : Bool := lowTok t == "net".data

/-- A weight-pattern hit: the parsed weight, its unit, and the tokens that
preceded the pattern (the item name). -/
structure WeightHit where
  w : Dec
  u : UnitKind
  before : List Tok
deriving DecidableEq

/-- Modelled from the spec: find the weight pattern `<decimal><unit> NET`
in a token list. -/
def findWeight : List Tok → Option WeightHit
  | [] => none
  | [_] => none
  | a :: b :: rest =>
    match weightTokParse a with
    | some du =>
        if isNetTok b then some ⟨du.1, du.2, []⟩
        else (findWeight (b :: rest)).map (fun h => ⟨h.w, h.u, a :: h.before⟩)
    | none => (findWeight (b :: rest)).map (fun h => ⟨h.w, h.u, a :: h.before⟩)

/-- Modelled from the spec: an explicit `qty × price` column token such as
`2x3.99` / `2X$3.99`; yields the quantity. -/
def qtyTimesParse (t : Tok) : Option Dec :=
  let q := t.takeWhile isDigitCh
  let rest := t.dropWhile isDigitCh
  match rest with
  | [] => none
  | c :: pr =>
      if (lowCh c == 'x') && (!q.isEmpty) && (parseMoney pr).isSome then
        some ⟨natOf q, 0⟩
      else none

/-- First `qty × price` token of a line, if any. -/
def findQtyTimes (ts : List Tok) : Option Dec := ts.findSome? qtyTimesParse

/-! ## Item extractor (`extract_price_and_quantity`)

Modelled from the spec: quantity precedence (first match wins) is
(1) a leading multiplier embedded in the name text; (2) a leading integer
immediately followed by a second ≥3-digit token is a line/item-code pair,
both dropped and the integer never treated as a quantity; (3) the weight
pattern `<decimal><unit> NET`; (4) an explicit qty×price column token;
(5) default 1.  The price is the rightmost currency-shaped token. -/

/-- A nonempty all-digit token. -/
def isIntTok (t : Tok) : Bool := (!t.isEmpty) && allDigits t

/-- A ≥3-digit numeric token (an item/line code, not a quantity). -/
def isCodeNum (t : Tok) : Bool := isIntTok t && decide (3 ≤ t.length)

/-- The result of `extract_price_and_quantity`. -/
structure ExtractOut where
  quantity : Dec
  unit : UnitKind
  priceTok : Option Tok
  price : Option Dec
  nameToks : List Tok
deriving DecidableEq

/-- The raw extracted name, re-joined. -/
def ExtractOut.nameRaw (e : ExtractOut) : String := ⟨joinToks e.nameToks⟩

/-- Remove the first token satisfying `p`, returning it and the rest. -/
def removeFirstTok (p : Tok → Bool) : List Tok → Option (Tok × List Tok)
  | [] => none
  | a :: as =>
    if p a then some (a, as)
    else (removeFirstTok p as).map (fun r => (r.1, a :: r.2))

/-- Quantity rules (3)–(5): weight pattern, qty×price token, default 1. -/
def quantityRules345 (ptok : Option Tok) (pval : Option Dec) (rest : List Tok) :
    ExtractOut :=
  match findWeight rest with
  | some h => ⟨h.w, h.u, ptok, pval, h.before⟩
  | none =>
    match findQtyTimes rest with
    | some q => ⟨q, .count, ptok, pval, rest⟩
    | none => ⟨⟨1, 0⟩, .count, ptok, pval, rest⟩

/-- Modelled from the spec: derive quantity, unit, price and raw name from
one item line. -/
def extract_price_and_quantity (line : String) : ExtractOut :=
  let ts := splitWs line.data
  let pr := removeFirstTok currencyShaped ts.reverse
  let ptok : Option Tok := pr.map (fun r => r.1)
  let rest : List Tok :=
    match pr with
    | some r => r.2.reverse
    | none => ts
  let pval : Option Dec := ptok.bind parseMoney
  match rest with
  | n :: t :: more =>
      if isIntTok n && !(isCodeNum n) && !(isCodeNum t) then
        ⟨⟨natOf n, 0⟩, .count, ptok, pval, t :: more⟩
      else if isIntTok n && !(isCodeNum n) && isCodeNum t then
        quantityRules345 ptok pval more
      else quantityRules345 ptok pval (n :: t :: more)
  | rest0 => quantityRules345 ptok pval rest0

/-! ## Name cleaner (`clean_item_name`)

Modelled from the spec: the ordered six-step cleaning pipeline —
(1) strip generalized "buy N get M" promotional phrasing with
edit-distance-1 tolerance; (2) strip "Line n" references and OCR
variants; (3) strip leading 3–6-digit item codes (optionally
colon-suffixed); (4) collapse punctuation artifacts and normalize
whitespace; (5) strip trailing measurement / unit-price annotations
(`@ $x/kg`, parenthesised weights); (6) reject results shorter than
three characters, otherwise title-case. -/

/-- Same length, differing in exactly one position. -/
def oneSub : Tok → Tok → Bool
  | [], [] => false
  | a :: as, b :: bs => if a == b then oneSub as bs else as == bs
  | _, _ => false

/-- `a` with exactly one character deleted equals `b`. -/
def delOne : Tok → Tok → Bool
  | _ :: as, [] => as.isEmpty
  | a :: as, b :: bs => if a == b then delOne as bs else as == b :: bs
  | [], _ => false

/-- Edit distance at most one (equality, substitution, insertion, deletion). -/
def near1 (a b : Tok) : Bool := a == b || oneSub a b || delOne a b || delOne b a

/-- A "buy"-like word, edit-distance-1 tolerant (catches `duy`). -/
def pBuy (t : Tok) : Bool := near1 (lowTok t) "buy".data

/-- A "get"/"receive"-like word, edit-distance-1 tolerant (catches `gel`). -/
def pGet (t : Tok) : Bool :=
  near1 (lowTok t) "get".data || near1 (lowTok t) "receive".data

/-- A count word of the promotional grammar: a numeral, or `one`/`two`
up to one OCR substitution (catches `ona`). -/
def pNum (t : Tok) : Bool :=
  ((!t.isEmpty) && allDigits t)
    || near1 (lowTok t) "one".data || near1 (lowTok t) "two".data

/-- Find the first token satisfying `p`; return the tokens after it. -/
def seekTok (p : Tok → Bool) : List Tok → Option (List Tok)
  | [] => none
  | t :: rest => if p t then some rest else seekTok p rest

/-- Match a sequence of token predicates in order, gaps allowed. -/
def seqMatch : List (Tok → Bool) → List Tok → Bool
  | [], _ => true
  | p :: ps, ts =>
    match seekTok p ts with
    | none => false
    | some r => seqMatch ps r

/-- The generalized promotional phrase `buy <n> get <n>` occurs. -/
def promoMatch (ts : List Tok) : Bool := seqMatch [pBuy, pNum, pGet, pNum] ts

/-- Step 1: a promotional line's whole name is discarded. -/
def step1 (ts : List Tok) : List Tok := if promoMatch ts then [] else ts

/-- A "Line"-like word of a line reference, with OCR variants. -/
def isLineWord (t : Tok) : Bool :=
  near1 (lowTok t) "line".data || lowTok t == "une".data

/-- A numeral token. -/
def isNumTok (t : Tok) : Bool := (!t.isEmpty) && allDigits t

/-- Step 2: strip `Line <n>` references (every line-word, and the numeral
directly after one). -/
def step2 : List Tok → List Tok
  | [] => []
  | [a] => if isLineWord a then [] else [a]
  | a :: b :: rest =>
    if isLineWord a then
      if isNumTok b then step2 rest else step2 (b :: rest)
    else a :: step2 (b :: rest)

/-- A punctuation-only artifact token. -/
def punctOnly (t : Tok) : Bool := t.all (fun c => !(isAlnumCh c))

/-- A 3–6-digit item code, optionally colon-suffixed. -/
def isCodeTok (t : Tok) : Bool :=
  if t.getLast? == some ':' then
    allDigits t.dropLast && decide (3 ≤ t.dropLast.length)
      && decide (t.dropLast.length ≤ 6)
  else allDigits t && decide (3 ≤ t.length) && decide (t.length ≤ 6)

/-- Step 3: strip leading item codes (and leading artifacts). -/
def step3 (ts : List Tok) : List Tok :=
  ts.dropWhile (fun t => isCodeTok t || punctOnly t)

/-- Step 4: collapse punctuation artifacts; whitespace normalization is
inherent in the token representation. -/
def step4 (ts : List Tok) : List Tok := ts.filter (fun t => !(punctOnly t))

/-- An `@`-annotation start (`@ $5.99/kg`). -/
def isAtTok (t : Tok) : Bool := t.head? == some '@'

/-- A parenthesised annotation token. -/
def isParenTok (t : Tok) : Bool := t.head? == some '(' || t.getLast? == some ')'

/-- Step 5: drop a trailing `@ …` unit-price annotation and trailing
parenthesised annotations. -/
def step5 (ts : List Tok) : List Tok :=
  ((ts.takeWhile (fun t => !(isAtTok t))).reverse.dropWhile isParenTok).reverse

/-- Title-case one word. -/
def titleCaseTok (t : Tok) : Tok :=
  match t with
  | [] => []
  | c :: rest => upCh c :: rest.map lowCh

/-- Steps 1–5 on the token list. -/
def cleanToks (ts : List Tok) : List Tok :=
  step5 (step4 (step3 (step2 (step1 ts))))

/-- Modelled from the spec: the six-step name-cleaning pipeline.  An
invalid result (shorter than three characters) is the empty string. -/
def clean_item_name (s : String) : String :=
  if (joinToks ((cleanToks (splitWs s.data)).map titleCaseTok)).length < 3 then ""
  else ⟨joinToks ((cleanToks (splitWs s.data)).map titleCaseTok)⟩

/-- A well-formed token: nonempty and whitespace-free; `splitWs` only
produces such tokens and every cleaning step preserves them. -/
def GoodTok (t : Tok) : Prop := t ≠ [] ∧ ∀ c ∈ t, isWsCh c = false

/-- A token list on which every cleaning step is a no-op: no promotional
phrase, no line-reference words, no leading code/artifact, no artifact
tokens, no `@` annotation, no trailing parenthesised annotation. -/
def CanonToks (ts : List Tok) : Prop :=
  promoMatch ts = false
  ∧ (∀ t ∈ ts, isLineWord t = false)
  ∧ (∀ h, ts.head? = some h → (isCodeTok h || punctOnly h) = false)
  ∧ (∀ t ∈ ts, punctOnly t = false)
  ∧ (∀ t ∈ ts, isAtTok t = false)
  ∧ (∀ h, ts.getLast? = some h → isParenTok h = false)

/-! ## Line classifier and hierarchical parser

Modelled from the spec: each line gets one role; `Noise` (blacklist) is
checked first, with the bare-item exception; a group header is a
non-indented priceless line whose next line is indented. -/

/-- Punctuation stripped before blacklist matching. -/
def stripPunct (c : Char) : Bool :=
  c == ',' || c == ';' || c == ':' || c == '.' || c == '!' || c == '$' ||
  c == '-' || c == '(' || c == ')' || c == '*' || c == '#'

/-- Lower-cased, punctuation-free view of a line. -/
def normLine (l : String) : List Char :=
  (l.data.map lowCh).filter (fun c => !(stripPunct c))

/-- The financial/tax/payment/promotional blacklist vocabulary. -/
def blacklistTerms : List (List Char) :=
  ["buy one get one".data, "subtotal".data, "total".data, "gst".data,
   "tax".data, "change".data, "credit card".data, "cash".data,
   "payment".data, "bogo".data, "balance due".data, "tip".data,
   "discount".data, "takeout total".data, "survey".data, "thank you".data]

/-- Modelled from the spec: blacklist membership of a line. -/
def is_blacklisted (l : String) : Bool :=
  blacklistTerms.any (fun t => hasSubSeq t (normLine l))

/-- Indentation: the line starts with a space or tab. -/
def isIndented (l : String) : Bool :=
  match l.data with
  | c :: _ => c == ' ' || c == '\t'
  | [] => false

/-- The line carries a currency-shaped price token. -/
def hasPriceTok (l : String) : Bool := (splitWs l.data).any currencyShaped

/-- The food-keyword whitelist used as the plausible-item-name signal. -/
def foodWhitelist : List (List Char) :=
  ["special".data, "pizza".data, "coffee".data, "bread".data, "milk".data,
   "tea".data, "burrito".data, "burritos".data, "fries".data, "cola".data,
   "sandwich".data, "chicken".data, "cheese".data, "butter".data,
   "rice".data, "pasta".data, "bagel".data, "muffin".data, "juice".data,
   "soda".data, "apple".data, "banana".data, "eggs".data]

/-- Modelled from the spec: the reclassification exception — a blacklisted
line whose only non-price content is one bare plausible item name,
immediately followed only by a price, is an item after all. -/
def bareItemException (l : String) : Bool :=
  match (splitWs l.data).filter (fun t => !(currencyShaped t)) with
  | [w] => hasPriceTok l && foodWhitelist.any (fun f => f == lowTok w)
  | _ => false

/-- The five line roles. -/
inductive LineRole
  | Noise
  | GroupHeader
  | StandaloneItem
  | SubItemOwnPrice
  | SubItemInherited
deriving DecidableEq

/-- Modelled from the spec: assign one role per line, given whether the
next line is indented. -/
def classify_line (l : String) (nextIndented : Bool) : LineRole :=
  if is_blacklisted l && !(bareItemException l) then .Noise
  else if !(isIndented l) && !(hasPriceTok l) && nextIndented then .GroupHeader
  else if !(isIndented l) && hasPriceTok l then .StandaloneItem
  else if isIndented l && hasPriceTok l then .SubItemOwnPrice
  else if isIndented l then .SubItemInherited
  else .Noise

/-- Non-fatal per-item/per-receipt annotations. -/
inductive ParseWarning
  | priceParseFailure
  | totalsMismatch
deriving DecidableEq

/-- A parsed receipt item. -/
structure ParsedItem where
  name : String
  quantity : Dec
  unit : UnitKind
  price : Option Dec
  warnings : List ParseWarning
deriving DecidableEq

/-- Build an item from a line that carries its own price.  A price token
that fails numeric parsing leaves the item with `price = none`, flagged. -/
def mkOwnItem (l : String) : ParsedItem :=
  let e := extract_price_and_quantity l
  ⟨clean_item_name e.nameRaw, e.quantity, e.unit, e.price,
    if e.priceTok.isSome && e.price.isNone then [.priceParseFailure] else []⟩

/-- Build a sub-item that inherits the enclosing context price. -/
def mkInheritedItem (l : String) (ctx : Option Dec) : ParsedItem :=
  let e := extract_price_and_quantity l
  ⟨clean_item_name e.nameRaw, e.quantity, e.unit, ctx, []⟩

/-- Modelled from the spec: walk the classified lines; noise and group
headers contribute no item; group headers and standalone items set the
inherited-price context for indented children. -/
def parse_hierarchical_go : Option Dec → List String → List ParsedItem
  | _, [] => []
  | ctx, l :: rest =>
    let nextInd :=
      match rest with
      | [] => false
      | n :: _ => isIndented n
    match classify_line l nextInd with
    | .Noise => parse_hierarchical_go ctx rest
    | .GroupHeader => parse_hierarchical_go (extract_price_and_quantity l).price rest
    | .StandaloneItem =>
        mkOwnItem l :: parse_hierarchical_go (extract_price_and_quantity l).price rest
    | .SubItemOwnPrice => mkOwnItem l :: parse_hierarchical_go ctx rest
    | .SubItemInherited => mkInheritedItem l ctx :: parse_hierarchical_go ctx rest

/-- Modelled from the spec: hierarchical parsing of a block of lines. -/
def parse_hierarchical_format (lines : List String) : List ParsedItem :=
  parse_hierarchical_go none lines

/-! ## Totals extractor

Modelled from the spec: keyword priority `total`/`grand total` (not
prefixed by `sub`) > `subtotal` > `balance due`; commas stripped before
numeric parsing; the last qualifying line in document order wins. -/

/-- Lower-cased view of a line with spaces and hyphens squashed out, so
`sub total` and `sub-total` read as `subtotal`. -/
def squashLine (l : String) : List Char :=
  (l.data.map lowCh).filter (fun c => !(isWsCh c || c == '-'))

/-- The last at most three characters of a list. -/
def last3 (l : List Char) : List Char := l.drop (l.length - 3)

/-- Scan for an occurrence of `total` not immediately preceded by `sub`,
carrying the previous (at most three) characters. -/
def totalKwAux : List Char → List Char → Bool
  | _, [] => false
  | prev3, c :: rest =>
      (startsWithSeq "total".data (c :: rest) && !(prev3 == "sub".data))
        || totalKwAux (last3 (prev3 ++ [c])) rest

/-- Tier 1: an un-prefixed `total` keyword, and the line does not mention
`subtotal` at all. -/
def tier1 (l : String) : Bool :=
  totalKwAux [] (squashLine l) && !(hasSubSeq "subtotal".data (squashLine l))

/-- Tier 2: the `subtotal` keyword. -/
def tier2 (l : String) : Bool := hasSubSeq "subtotal".data (squashLine l)

/-- Tier 3: the `balance due` keyword. -/
def tier3 (l : String) : Bool := hasSubSeq "balancedue".data (squashLine l)

/-- The rightmost parseable numeric token of a line, commas stripped. -/
def lineAmount (l : String) : Option Dec :=
  ((splitWs l.data).filterMap parseMoney).getLast?

/-- The amount of the last line (in document order) satisfying `p`. -/
def lastAmount (p : String → Bool) (lines : List String) : Option Dec :=
  ((lines.filter p).filterMap lineAmount).getLast?

/-- Modelled from the spec: the receipt total. -/
def extract_total (lines : List String) : Option Dec :=
  match lastAmount tier1 lines with
  | some v => some v
  | none =>
    match lastAmount tier2 lines with
    | some v => some v
    | none => lastAmount tier3 lines

/-! ## Receipt assembly and pipeline -/

/-- The assembled receipt. -/
structure Receipt where
  items : List ParsedItem
  total : Option Dec
  warnings : List ParseWarning
deriving DecidableEq

/-- The rational sum of the item lines. -/
def itemsSum (items : List ParsedItem) : ℚ :=
  (items.map (fun it =>
    (match it.price with
     | some d => d.toRat
     | none => 0) * it.quantity.toRat)).sum

/-- Does the extracted total deviate from the item sum beyond tolerance? -/
def totalsDeviate (items : List ParsedItem) (tot : Option Dec) : Bool :=
  match tot with
  | none => false
  | some d => decide ((1 : ℚ)/100 < |itemsSum items - d.toRat|)

/-- Modelled from the spec: assemble the final receipt; a totals mismatch
only appends a warning, and never alters items or totals. -/
def assembleReceipt (items : List ParsedItem) (tot : Option Dec) : Receipt :=
  ⟨items, tot, if totalsDeviate items tot then [.totalsMismatch] else []⟩

/-- Split an OCR text into its lines. -/
def textLines (s : String) : List String := s.split (fun c => c == '\n')

/-- Modelled from the spec: the line/item-level parsing pipeline; it is a
total function — no line can abort it. -/
def parse_receipt (text : String) : Receipt :=
  let ls := textLines text
  assembleReceipt (parse_hierarchical_format ls) (extract_total ls)

/-! ## OCR orchestrator (`enhanced_ocr_service.py`, hybrid mode) -/

/-- One OCR engine attempt, as the Python result dict. -/
structure OcrResult where
  success : Bool
  text : String
  confidence : ℚ
  engine : String
  hybrid_mode : Bool
  comparison_score : Option ℚ
deriving DecidableEq

/-- `QUALITY_THRESHOLD = 70.0`. -/
def QUALITY_THRESHOLD : ℚ := 70

/-- Words of an OCR text longer than two characters, as in
`len([w for w in text.split() if len(w) > 2])`. -/
def wordCount (s : String) : Nat :=
  ((splitWs s.data).filter (fun t => 2 < t.length)).length

/-- The hybrid-mode score:
`confidence * 0.40 + min(100, len(text)/500*100) * 0.30 + min(100, words/50*100) * 0.30`. -/
def ocrScore (r : OcrResult) : ℚ :=
  r.confidence * (40/100)
    + min 100 (((r.text.length : ℚ) / 500) * 100) * (30/100)
    + min 100 (((wordCount r.text : ℚ) / 50) * 100) * (30/100)

/-- `_compare_ocr_results`: score both candidates, return the winner tagged
with `hybrid_mode = True`; ties (`>=`) go to the first (primary) argument. -/
def compare_ocr_results (ocr tess : OcrResult) : OcrResult :=
  if ocrScore tess ≤ ocrScore ocr then
    { ocr with hybrid_mode := true, comparison_score := some (ocrScore ocr) }
  else
    { tess with hybrid_mode := true, comparison_score := some (ocrScore tess) }

/-- `_try_multiple_ocr_methods` with hybrid-mode support.  The two arguments
are the primary (OCR.space) and secondary (Tesseract) engine results; the
returned Boolean records whether the secondary engine was invoked. -/
def try_multiple_ocr_methods (ocr tess : OcrResult) : OcrResult × Bool :=
  if ocr.success then
    if ocr.confidence < QUALITY_THRESHOLD then
      if tess.success then (compare_ocr_results ocr tess, true)
      else (ocr, true)
    else (ocr, false)
  else (tess, true)

/-- Modelled from the spec: `OcrUnavailable` ("all engines failed/timed out;
fatal for this receipt") — the raising code is not in the repository
snapshot, so the fatal error is modelled as the orchestrator's returned
record having `success = false`. -/
def ocrUnavailable (r : OcrResult) : Prop := r.success = false

/-- The fatal pipeline error. -/
inductive PipelineError
  | ocrUnavailableErr
deriving DecidableEq

/-- The whole pipeline after preprocessing: orchestrate the engines, then
parse the winning text; only an OCR failure aborts. -/
def full_pipeline (o t : OcrResult) : Except PipelineError Receipt :=
  let r := (try_multiple_ocr_methods o t).1
  if r.success then .ok (parse_receipt r.text) else .error .ocrUnavailableErr

/-! # Theorems -/

/-! ## Case-map facts -/

theorem upCh_cases (c : Char) :
    upCh c = c ∨ ∃ p, p ∈ caseTable ∧ p.1 = c ∧ upCh c = p.2 := by
  unfold upCh
  cases hf : caseTable.find? (fun p => p.1 == c) with
  | none => exact Or.inl rfl
  | some p =>
    refine Or.inr ⟨p, List.mem_of_find?_eq_some hf, ?_, rfl⟩
    simpa using List.find?_some hf

theorem lowCh_cases (c : Char) :
    lowCh c = c ∨ ∃ p, p ∈ caseTable ∧ p.2 = c ∧ lowCh c = p.1 := by
  unfold lowCh
  cases hf : caseTable.find? (fun p => p.2 == c) with
  | none => exact Or.inl rfl
  | some p =>
    refine Or.inr ⟨p, List.mem_of_find?_eq_some hf, ?_, rfl⟩
    simpa using List.find?_some hf

theorem upCh_no_pair (c : Char) (h : ∀ p ∈ caseTable, ¬ p.1 = c) : upCh c = c := by
  unfold upCh
  rw [List.find?_eq_none.mpr (fun p hp => by simpa using h p hp)]

theorem lowCh_no_pair (c : Char) (h : ∀ p ∈ caseTable, ¬ p.2 = c) : lowCh c = c := by
  unfold lowCh
  rw [List.find?_eq_none.mpr (fun p hp => by simpa using h p hp)]

theorem snd_not_fst : ∀ p ∈ caseTable, ∀ q ∈ caseTable, ¬ q.1 = p.2 := by decide

theorem fst_not_snd : ∀ p ∈ caseTable, ∀ q ∈ caseTable, ¬ q.2 = p.1 := by decide

theorem upCh_upCh (c : Char) : upCh (upCh c) = upCh c := by
  rcases upCh_cases c with h | ⟨p, hp, _, h2⟩
  · rw [h]; exact h
  · rw [h2]; exact upCh_no_pair _ (fun q hq => snd_not_fst p hp q hq)

theorem lowCh_lowCh (c : Char) : lowCh (lowCh c) = lowCh c := by
  rcases lowCh_cases c with h | ⟨p, hp, _, h2⟩
  · rw [h]; exact h
  · rw [h2]; exact lowCh_no_pair _ (fun q hq => fst_not_snd p hp q hq)

theorem lowCh_pair (p : Char × Char) (hp : p ∈ caseTable) : lowCh p.2 = p.1 := by
  unfold lowCh
  cases hf : caseTable.find? (fun q => q.2 == p.2) with
  | none =>
    exact absurd (by simp : (fun q : Char × Char => q.2 == p.2) p = true)
      (List.find?_eq_none.mp hf p hp)
  | some q =>
    have hq2 : q.2 = p.2 := by simpa using List.find?_some hf
    have hqm := List.mem_of_find?_eq_some hf
    have hqp : q = p := by
      have h5 : ∀ a ∈ caseTable, ∀ b ∈ caseTable, a.2 = b.2 → a = b := by decide
      exact h5 q hqm p hp hq2
    rw [hqp]

theorem lowCh_upCh (c : Char) : lowCh (upCh c) = lowCh c := by
  rcases upCh_cases c with h | ⟨p, hp, h1, h2⟩
  · rw [h]
  · rw [h2, lowCh_pair p hp, ← h1]
    exact (lowCh_no_pair _ (fun q hq => fst_not_snd p hp q hq)).symm

theorem isWsCh_upCh (c : Char) : isWsCh (upCh c) = isWsCh c := by
  rcases upCh_cases c with h | ⟨p, hp, h1, h2⟩
  · rw [h]
  · rw [h2, ← h1]
    have h5 : ∀ q ∈ caseTable, isWsCh q.2 = false ∧ isWsCh q.1 = false := by decide
    rw [(h5 p hp).1, (h5 p hp).2]

theorem isWsCh_lowCh (c : Char) : isWsCh (lowCh c) = isWsCh c := by
  rcases lowCh_cases c with h | ⟨p, hp, h1, h2⟩
  · rw [h]
  · rw [h2, ← h1]
    have h5 : ∀ q ∈ caseTable, isWsCh q.2 = false ∧ isWsCh q.1 = false := by decide
    rw [(h5 p hp).1, (h5 p hp).2]

theorem isDigitCh_upCh (c : Char) : isDigitCh (upCh c) = isDigitCh c := by
  rcases upCh_cases c with h | ⟨p, hp, h1, h2⟩
  · rw [h]
  · rw [h2, ← h1]
    have h5 : ∀ q ∈ caseTable, isDigitCh q.2 = false ∧ isDigitCh q.1 = false := by decide
    rw [(h5 p hp).1, (h5 p hp).2]

theorem isDigitCh_lowCh (c : Char) : isDigitCh (lowCh c) = isDigitCh c := by
  rcases lowCh_cases c with h | ⟨p, hp, h1, h2⟩
  · rw [h]
  · rw [h2, ← h1]
    have h5 : ∀ q ∈ caseTable, isDigitCh q.2 = false ∧ isDigitCh q.1 = false := by decide
    rw [(h5 p hp).1, (h5 p hp).2]

theorem isAlnumCh_upCh (c : Char) : isAlnumCh (upCh c) = isAlnumCh c := by
  rcases upCh_cases c with h | ⟨p, hp, h1, h2⟩
  · rw [h]
  · rw [h2, ← h1]
    have h5 : ∀ q ∈ caseTable, isAlnumCh q.2 = true ∧ isAlnumCh q.1 = true := by decide
    rw [(h5 p hp).1, (h5 p hp).2]

theorem isAlnumCh_lowCh (c : Char) : isAlnumCh (lowCh c) = isAlnumCh c := by
  rcases lowCh_cases c with h | ⟨p, hp, h1, h2⟩
  · rw [h]
  · rw [h2, ← h1]
    have h5 : ∀ q ∈ caseTable, isAlnumCh q.2 = true ∧ isAlnumCh q.1 = true := by decide
    rw [(h5 p hp).1, (h5 p hp).2]

theorem not_letter_table : ∀ k, isLetterCh k = false →
    ∀ q ∈ caseTable, ¬ q.1 = k ∧ ¬ q.2 = k := by
  intro k hk q hq
  constructor
  · intro h
    have h3 : ∀ r ∈ caseTable, isLetterCh r.1 = true := by decide
    have h4 := h3 q hq
    rw [h, hk] at h4
    simp at h4
  · intro h
    have h3 : ∀ r ∈ caseTable, isLetterCh r.2 = true := by decide
    have h4 := h3 q hq
    rw [h, hk] at h4
    simp at h4

theorem upCh_eq_special (c k : Char) (hk : isLetterCh k = false) :
    (upCh c = k) ↔ (c = k) := by
  rcases upCh_cases c with h | ⟨p, hp, h1, h2⟩
  · rw [h]
  · rw [h2, ← h1]
    constructor
    · intro h; exact absurd h (not_letter_table k hk p hp).2
    · intro h; exact absurd h (not_letter_table k hk p hp).1

theorem lowCh_eq_special (c k : Char) (hk : isLetterCh k = false) :
    (lowCh c = k) ↔ (c = k) := by
  rcases lowCh_cases c with h | ⟨p, hp, h1, h2⟩
  · rw [h]
  · rw [h2, ← h1]
    constructor
    · intro h; exact absurd h (not_letter_table k hk p hp).1
    · intro h; exact absurd h (not_letter_table k hk p hp).2

/-! ## Claims C1, C2, C3, C10 -/

/-- C2: whenever the primary engine succeeds with confidence at or above the
70% threshold, the orchestrator returns the primary result unchanged and
the secondary engine is never invoked. -/
theorem high_confidence_primary_short_circuit (o t : OcrResult)
    (hs : o.success = true) (hc : QUALITY_THRESHOLD ≤ o.confidence) :
    try_multiple_ocr_methods o t = (o, false) := by
  unfold try_multiple_ocr_methods
  rw [hs]
  simp [not_lt.mpr hc]

/-- Witness for C2 at a concrete input: confidence 85 ≥ 70. -/
theorem high_confidence_primary_short_circuit_witness :
    try_multiple_ocr_methods ⟨true, "abc", 85, "ocrspace", false, none⟩
        ⟨true, "xyz", 50, "tesseract", false, none⟩
      = (⟨true, "abc", 85, "ocrspace", false, none⟩, false) :=
  high_confidence_primary_short_circuit _ _ rfl (by norm_num [QUALITY_THRESHOLD])

/-- C1: in hybrid mode (primary succeeded below threshold, secondary
succeeded) each candidate is scored by
`0.40·confidence + 0.30·min(100, len/500·100) + 0.30·min(100, words/50·100)`
with `words` counting whitespace tokens longer than two characters, and the
higher-scoring candidate is returned tagged `hybrid_mode = true`. -/
theorem hybrid_scoring_selects_higher (o t : OcrResult)
    (hs : o.success = true) (hc : o.confidence < QUALITY_THRESHOLD)
    (ht : t.success = true) :
    (ocrScore o = (40/100) * o.confidence
        + (30/100) * min 100 (((o.text.length : ℚ) / 500) * 100)
        + (30/100) * min 100 (((wordCount o.text : ℚ) / 50) * 100))
    ∧ (ocrScore t < ocrScore o →
        try_multiple_ocr_methods o t
          = ({ o with hybrid_mode := true, comparison_score := some (ocrScore o) }, true))
    ∧ (ocrScore o < ocrScore t →
        try_multiple_ocr_methods o t
          = ({ t with hybrid_mode := true, comparison_score := some (ocrScore t) }, true)) := by
  refine ⟨by unfold ocrScore; ring, ?_, ?_⟩
  · intro hlt
    unfold try_multiple_ocr_methods compare_ocr_results
    rw [hs, ht]
    simp [hc, le_of_lt hlt]
  · intro hlt
    unfold try_multiple_ocr_methods compare_ocr_results
    rw [hs, ht]
    simp [hc, not_le.mpr hlt]

/-- Witness for C1 at concrete inputs where the primary scores higher. -/
theorem hybrid_scoring_selects_higher_witness :
    try_multiple_ocr_methods ⟨true, "abc def", 60, "ocrspace", false, none⟩
        ⟨true, "", 10, "tesseract", false, none⟩
      = ({ (⟨true, "abc def", 60, "ocrspace", false, none⟩ : OcrResult) with
            hybrid_mode := true,
            comparison_score :=
              some (ocrScore ⟨true, "abc def", 60, "ocrspace", false, none⟩) }, true) :=
  (hybrid_scoring_selects_higher ⟨true, "abc def", 60, "ocrspace", false, none⟩
      ⟨true, "", 10, "tesseract", false, none⟩
      rfl (by norm_num [QUALITY_THRESHOLD]) rfl).2.1 (by
    have h1 : wordCount "abc def" = 2 := by decide
    have h2 : wordCount "" = 0 := by decide
    have h3 : ("abc def" : String).length = 7 := rfl
    have h4 : ("" : String).length = 0 := rfl
    unfold ocrScore
    simp only [h1, h2, h3, h4]
    rw [min_def, min_def, min_def, min_def]
    split_ifs <;> norm_num <;> linarith)

/-- C3: if the primary engine fails outright the orchestrator returns the
secondary engine's result directly (unchanged, with no scoring
comparison), and the result is the fatal `OcrUnavailable` condition
exactly when both engines failed. -/
theorem primary_failure_fallback_and_unavailable (o t : OcrResult) :
    (o.success = false → try_multiple_ocr_methods o t = (t, true))
    ∧ (ocrUnavailable (try_multiple_ocr_methods o t).1
        ↔ (o.success = false ∧ t.success = false)) := by
  constructor
  · intro hs
    unfold try_multiple_ocr_methods
    rw [hs]
    simp
  · unfold ocrUnavailable try_multiple_ocr_methods
    by_cases hs : o.success
    · rw [hs]
      by_cases hconf : o.confidence < QUALITY_THRESHOLD
      · by_cases hts : t.success
        · rw [hts]
          unfold compare_ocr_results
          by_cases hcmp : ocrScore t ≤ ocrScore o <;> simp [hconf, hcmp, hs, hts]
        · simp only [Bool.not_eq_true] at hts
          rw [hts]
          simp [hconf, hs]
      · simp [hconf, hs]
    · simp only [Bool.not_eq_true] at hs
      rw [hs]
      simp

/-- Witness for C3 at a concrete input where the primary failed and the
secondary succeeded. -/
theorem primary_failure_fallback_witness :
    try_multiple_ocr_methods ⟨false, "", 0, "ocrspace", false, none⟩
        ⟨true, "ok text", 40, "tesseract", false, none⟩
      = (⟨true, "ok text", 40, "tesseract", false, none⟩, true) :=
  (primary_failure_fallback_and_unavailable
      ⟨false, "", 0, "ocrspace", false, none⟩
      ⟨true, "ok text", 40, "tesseract", false, none⟩).1 rfl

/-- C10: score ties in `_compare_ocr_results` go to the primary engine (the
comparison is `>=`), and every comparison returns one of its two inputs
tagged with `hybrid_mode = true`. -/
theorem tie_goes_to_primary (o t : OcrResult) :
    (ocrScore o = ocrScore t →
      compare_ocr_results o t
        = { o with hybrid_mode := true, comparison_score := some (ocrScore o) })
    ∧ (compare_ocr_results o t
          = { o with hybrid_mode := true, comparison_score := some (ocrScore o) }
        ∨ compare_ocr_results o t
          = { t with hybrid_mode := true, comparison_score := some (ocrScore t) })
    ∧ (compare_ocr_results o t).hybrid_mode = true := by
  unfold compare_ocr_results
  by_cases hcmp : ocrScore t ≤ ocrScore o <;> simp [hcmp]
  intro h
  exact absurd h.ge hcmp

/-- Witness for C10 at a concrete tie: identical text and confidence. -/
theorem tie_goes_to_primary_witness :
    compare_ocr_results ⟨true, "same", 50, "ocrspace", false, none⟩
        ⟨true, "same", 50, "tesseract", false, none⟩
      = { (⟨true, "same", 50, "ocrspace", false, none⟩ : OcrResult) with
            hybrid_mode := true,
            comparison_score :=
              some (ocrScore ⟨true, "same", 50, "ocrspace", false, none⟩) } :=
  (tie_goes_to_primary ⟨true, "same", 50, "ocrspace", false, none⟩
      ⟨true, "same", 50, "tesseract", false, none⟩).1 rfl

/-! ## Classifier helpers -/

theorem bareItemException_of_no_price (l : String) (h : hasPriceTok l = false) :
    bareItemException l = false := by
  unfold bareItemException
  cases hm : (splitWs l.data).filter (fun t => !(currencyShaped t)) with
  | nil => rfl
  | cons w ws =>
    cases ws with
    | nil => simp [h]
    | cons b bs => rfl

theorem classify_noise_of_blacklisted (l : String) (next : Bool)
    (hb : is_blacklisted l = true) (hx : bareItemException l = false) :
    classify_line l next = LineRole.Noise := by
  unfold classify_line
  rw [hb, hx]
  simp

theorem classify_subitem_own_price (l : String) (next : Bool)
    (hb : is_blacklisted l = false) (hi : isIndented l = true)
    (hp : hasPriceTok l = true) :
    classify_line l next = LineRole.SubItemOwnPrice := by
  unfold classify_line
  rw [hb, hi, hp]
  simp

theorem classify_standalone_helper (l : String) (next : Bool)
    (hb : is_blacklisted l = false) (hi : isIndented l = false)
    (hp : hasPriceTok l = true) :
    classify_line l next = LineRole.StandaloneItem := by
  unfold classify_line
  rw [hb, hi, hp]
  simp

/-! ## Claim C4 -/

/-- C4: a blacklisted group-header line followed by two indented sub-item
lines, each carrying its own price, yields exactly those two items, each
with the price extracted from its own line; the header contributes no
item. -/
theorem blacklisted_header_subitems_extracted (h s1 s2 : String)
    (hbl : is_blacklisted h = true) (hhp : hasPriceTok h = false)
    (hi1 : isIndented s1 = true) (hi2 : isIndented s2 = true)
    (hb1 : is_blacklisted s1 = false) (hb2 : is_blacklisted s2 = false)
    (hp1 : hasPriceTok s1 = true) (hp2 : hasPriceTok s2 = true) :
    parse_hierarchical_format [h, s1, s2] = [mkOwnItem s1, mkOwnItem s2]
    ∧ (mkOwnItem s1).price = (extract_price_and_quantity s1).price
    ∧ (mkOwnItem s2).price = (extract_price_and_quantity s2).price := by
  refine ⟨?_, rfl, rfl⟩
  have c1 : classify_line h (isIndented s1) = LineRole.Noise :=
    classify_noise_of_blacklisted h _ hbl (bareItemException_of_no_price h hhp)
  have c2 : classify_line s1 (isIndented s2) = LineRole.SubItemOwnPrice :=
    classify_subitem_own_price s1 _ hb1 hi1 hp1
  have c3 : classify_line s2 false = LineRole.SubItemOwnPrice :=
    classify_subitem_own_price s2 _ hb2 hi2 hp2
  unfold parse_hierarchical_format
  rw [parse_hierarchical_go]
  simp only [c1]
  rw [parse_hierarchical_go]
  simp only [c2]
  rw [parse_hierarchical_go]
  simp only [c3]
  rw [parse_hierarchical_go]

/-- Witness for C4: the documented "Buy One, Get One" header with two
priced sub-items. -/
theorem blacklisted_header_subitems_extracted_witness :
    parse_hierarchical_format
        ["Buy One, Get One", "  2 Burritos $6.98", "  M Iced Coffee $2.49"]
      = [mkOwnItem "  2 Burritos $6.98", mkOwnItem "  M Iced Coffee $2.49"] :=
  (blacklisted_header_subitems_extracted
      "Buy One, Get One" "  2 Burritos $6.98" "  M Iced Coffee $2.49"
      (by decide) (by decide) (by decide) (by decide)
      (by decide) (by decide) (by decide) (by decide)).1

/-! ## Claim C5 -/

/-- C5: the quantity precedence rules on the spec's own examples —
`"1 9275 Bread"` is a line/item-code pair (sequence number discarded,
default quantity 1, name `Bread`); `"2 GYRO $50.00"` is a leading
multiplier (quantity 2, name `GYRO`, price 50.00); `"0.778kg NET @
$5.99/kg"` is a weight pattern (quantity 0.778, unit kg); and
`"2 0230 Salami"` shows the discarded sequence number taking precedence
over the multiplier reading. -/
theorem quantity_rules_examples :
    (extract_price_and_quantity "1 9275 Bread").quantity = ⟨1, 0⟩
    ∧ (extract_price_and_quantity "1 9275 Bread").nameRaw = "Bread"
    ∧ (extract_price_and_quantity "2 GYRO $50.00").quantity.toRat = 2
    ∧ (extract_price_and_quantity "2 GYRO $50.00").nameRaw = "GYRO"
    ∧ ((extract_price_and_quantity "2 GYRO $50.00").price.map Dec.toRat) = some 50
    ∧ (extract_price_and_quantity "0.778kg NET @ $5.99/kg").quantity.toRat = 778/1000
    ∧ (extract_price_and_quantity "0.778kg NET @ $5.99/kg").unit = UnitKind.kg
    ∧ (extract_price_and_quantity "2 0230 Salami").quantity = ⟨1, 0⟩ := by
  refine ⟨by decide, by decide, ?_, by decide, ?_, ?_, by decide, by decide⟩
  · have h : (extract_price_and_quantity "2 GYRO $50.00").quantity = ⟨2, 0⟩ := by decide
    rw [h]
    norm_num [Dec.toRat]
  · have h : (extract_price_and_quantity "2 GYRO $50.00").price = some ⟨5000, 2⟩ := by
      decide
    rw [h]
    norm_num [Dec.toRat]
  · have h : (extract_price_and_quantity "0.778kg NET @ $5.99/kg").quantity = ⟨778, 3⟩ := by
      decide
    rw [h]
    norm_num [Dec.toRat]

/-! ## Claim C6 -/

/-- C6: the totals extractor never satisfies its `total` keyword on a line
mentioning `subtotal`; keyword priority is total > subtotal > balance due;
thousands-separator commas are stripped (`"1,060.0"` parses to 1060.0);
and with several qualifying total lines the last in document order wins. -/
theorem total_extraction_rules :
    (∀ l : String, hasSubSeq ("subtotal".data) (squashLine l) = true → tier1 l = false)
    ∧ extract_total ["Subtotal: 999.99", "TOTAL: 1,060.0"] = some ⟨10600, 1⟩
    ∧ ((extract_total ["Subtotal: 999.99", "TOTAL: 1,060.0"]).map Dec.toRat) = some 1060
    ∧ extract_total ["TOTAL: 34.50", "Subtotal: 999.99"] = some ⟨3450, 2⟩
    ∧ extract_total ["Total: 10.00", "Total: 20.00"] = some ⟨2000, 2⟩
    ∧ extract_total ["Balance due 5.00", "Subtotal 7.00"] = some ⟨700, 2⟩
    ∧ extract_total ["Balance due 5.00"] = some ⟨500, 2⟩ := by
  refine ⟨?_, by decide, ?_, by decide, by decide, by decide, by decide⟩
  · intro l hsub
    unfold tier1
    rw [hsub]
    simp
  · have h : extract_total ["Subtotal: 999.99", "TOTAL: 1,060.0"] = some ⟨10600, 1⟩ := by
      decide
    rw [h]
    norm_num [Dec.toRat]

/-- Witness for C6: a line mentioning `subtotal` never matches the total
keyword tier. -/
theorem total_extraction_rules_witness :
    tier1 "Subtotal 7.00" = false :=
  total_extraction_rules.1 "Subtotal 7.00" (by decide)

/-! ## Claim C8 (corrected) -/

/-- C8 counterexample: `"Total $103"` is a non-indented line containing a
price whose next line is not indented, yet it is classified `Noise` (it is
blacklisted), not `StandaloneItem`. -/
theorem standalone_claim_counterexample :
    isIndented "Total $103" = false ∧ hasPriceTok "Total $103" = true
    ∧ classify_line "Total $103" false = LineRole.Noise
    ∧ classify_line "Total $103" false ≠ LineRole.StandaloneItem := by decide

/-- C8 (amended): a non-indented, non-blacklisted line containing a price
classifies as `StandaloneItem` whatever the next line is, and no line
containing a price is ever classified as a group header. -/
theorem standalone_item_classification (l : String) (next : Bool)
    (hb : is_blacklisted l = false) (hi : isIndented l = false)
    (hp : hasPriceTok l = true) :
    classify_line l next = LineRole.StandaloneItem
    ∧ ∀ (l2 : String) (n2 : Bool), hasPriceTok l2 = true →
        classify_line l2 n2 ≠ LineRole.GroupHeader := by
  refine ⟨classify_standalone_helper l next hb hi hp, ?_⟩
  intro l2 n2 hp2
  unfold classify_line
  simp only [hp2]
  split_ifs <;> simp_all

/-- Witness for C8 (amended): the spec's own `"Pizza    $103"` line. -/
theorem standalone_item_classification_witness :
    classify_line "Pizza    $103" false = LineRole.StandaloneItem :=
  (standalone_item_classification "Pizza    $103" false
      (by decide) (by decide) (by decide)).1

/-! ## Claim C9 -/

/-- C9: line- and item-level failures never abort parsing — whenever the
orchestrator produced a successful OCR result the pipeline returns a
complete `Receipt`; an item line whose price token fails numeric parsing
stays in the output with `price = none` and a flag; and a totals mismatch
never alters items or totals (it can only add a warning). -/
theorem line_failures_never_abort :
    (∀ o t : OcrResult, (try_multiple_ocr_methods o t).1.success = true →
      full_pipeline o t
        = Except.ok (parse_receipt (try_multiple_ocr_methods o t).1.text))
    ∧ (∀ l : String, is_blacklisted l = false → isIndented l = false →
        hasPriceTok l = true →
        (extract_price_and_quantity l).priceTok.isSome = true →
        (extract_price_and_quantity l).price = none →
        parse_hierarchical_format [l] = [mkOwnItem l]
          ∧ (mkOwnItem l).price = none
          ∧ ParseWarning.priceParseFailure ∈ (mkOwnItem l).warnings)
    ∧ (∀ (items : List ParsedItem) (tot : Option Dec),
        (assembleReceipt items tot).items = items
          ∧ (assembleReceipt items tot).total = tot) := by
  refine ⟨?_, ?_, fun items tot => ⟨rfl, rfl⟩⟩
  · intro o t h
    simp [full_pipeline, h]
  · intro l hb hi hp hpt hpv
    have hc : classify_line l false = LineRole.StandaloneItem :=
      classify_standalone_helper l false hb hi hp
    refine ⟨?_, ?_, ?_⟩
    · unfold parse_hierarchical_format
      rw [parse_hierarchical_go]
      simp only [hc]
      rw [parse_hierarchical_go]
    · unfold mkOwnItem
      simp only [hpv]
    · unfold mkOwnItem
      simp only [hpt, hpv, Option.isNone_none, Bool.and_true, if_true]
      simp

/-- Witness for C9: a line with a malformed price token `$1.2.3` — the item
is retained, price is null, and the parse-failure flag is set. -/
theorem line_failures_never_abort_witness :
    parse_hierarchical_format ["Gravy $1.2.3"] = [mkOwnItem "Gravy $1.2.3"]
    ∧ (mkOwnItem "Gravy $1.2.3").price = none
    ∧ ParseWarning.priceParseFailure ∈ (mkOwnItem "Gravy $1.2.3").warnings :=
  line_failures_never_abort.2.1 "Gravy $1.2.3"
    (by decide) (by decide) (by decide) (by decide) (by decide)

/-! ## Claim C7: the cleaning pipeline is idempotent

The proof follows the fixpoint shape: the pipeline's output satisfies
`CanonToks`; on a canonical list every step is a no-op; title-casing
preserves canonicity (all checks are case-insensitive); and splitting the
re-joined output returns exactly its tokens. -/

theorem foldr_splitStep_good (cs : List Char) :
    (∀ c ∈ (cs.foldr splitStep ([], [])).1, isWsCh c = false)
    ∧ (∀ t ∈ (cs.foldr splitStep ([], [])).2, GoodTok t) := by
  induction cs with
  | nil => exact ⟨by simp, by simp⟩
  | cons c cs ih =>
    rcases ih with ⟨ih1, ih2⟩
    simp only [List.foldr_cons]
    set st := cs.foldr splitStep ([], []) with hst
    unfold splitStep
    by_cases hws : isWsCh c = true
    · rw [if_pos hws]
      refine ⟨by simp, ?_⟩
      intro t ht
      unfold pushTok at ht
      by_cases hcur : st.1 = []
      · rw [if_pos hcur] at ht; exact ih2 t ht
      · rw [if_neg hcur] at ht
        rcases List.mem_cons.mp ht with rfl | hmem
        · exact ⟨hcur, ih1⟩
        · exact ih2 t hmem
    · rw [if_neg hws]
      refine ⟨?_, ih2⟩
      intro d hd
      rcases List.mem_cons.mp hd with rfl | hmem
      · simpa using hws
      · exact ih1 d hmem

theorem splitWs_good (cs : List Char) : ∀ t ∈ splitWs cs, GoodTok t := by
  intro t ht
  unfold splitWs at ht
  obtain ⟨h1, h2⟩ := foldr_splitStep_good cs
  set st := cs.foldr splitStep ([], []) with hst
  unfold pushTok at ht
  by_cases hcur : st.1 = []
  · rw [if_pos hcur] at ht; exact h2 t ht
  · rw [if_neg hcur] at ht
    rcases List.mem_cons.mp ht with rfl | hmem
    · exact ⟨hcur, h1⟩
    · exact h2 t hmem

theorem foldr_splitStep_word (w : List Char) (hw : ∀ c ∈ w, isWsCh c = false)
    (st : Tok × List Tok) : w.foldr splitStep st = (w ++ st.1, st.2) := by
  induction w with
  | nil => simp
  | cons c w ih =>
    have hc : isWsCh c = false := hw c (by simp)
    have hw2 : ∀ d ∈ w, isWsCh d = false := fun d hd => hw d (by simp [hd])
    simp only [List.foldr_cons, ih hw2]
    unfold splitStep
    rw [if_neg (by simp [hc])]
    rfl

theorem splitWs_single (w : List Char) (hne : w ≠ [])
    (hw : ∀ c ∈ w, isWsCh c = false) : splitWs w = [w] := by
  unfold splitWs
  rw [foldr_splitStep_word w hw ([], [])]
  simp [pushTok, hne]

theorem splitWs_word_space (w : List Char) (hne : w ≠ [])
    (hw : ∀ c ∈ w, isWsCh c = false) (rest : List Char) :
    splitWs (w ++ ' ' :: rest) = w :: splitWs rest := by
  unfold splitWs
  have hsp : (' ' :: rest).foldr splitStep ([], [])
      = ([], pushTok (rest.foldr splitStep ([], [])).1
          (rest.foldr splitStep ([], [])).2) := rfl
  rw [List.foldr_append, hsp, foldr_splitStep_word w hw]
  simp [pushTok, hne]

theorem splitWs_join (ws : List Tok) (h : ∀ t ∈ ws, GoodTok t) :
    splitWs (joinToks ws) = ws := by
  induction ws with
  | nil => rfl
  | cons w rest ih =>
    cases rest with
    | nil =>
      obtain ⟨hne, hwf⟩ := h w (by simp)
      simpa [joinToks] using splitWs_single w hne hwf
    | cons u rest2 =>
      obtain ⟨hne, hwf⟩ := h w (by simp)
      rw [show joinToks (w :: u :: rest2) = w ++ ' ' :: joinToks (u :: rest2) from rfl]
      rw [splitWs_word_space w hne hwf]
      rw [ih (fun t ht => h t (List.mem_cons_of_mem w ht))]

theorem step1_sub (ts : List Tok) : (step1 ts).Sublist ts := by
  unfold step1
  split_ifs
  · exact List.nil_sublist ts
  · exact List.Sublist.refl ts

theorem step2_sub : ∀ ts : List Tok, (step2 ts).Sublist ts
  | [] => by simp [step2]
  | [a] => by
      unfold step2
      split_ifs
      · exact List.nil_sublist _
      · exact List.Sublist.refl _
  | a :: b :: rest => by
      unfold step2
      split_ifs
      · exact ((step2_sub rest).trans (List.sublist_cons_self b rest)).cons a
      · exact (step2_sub (b :: rest)).cons a
      · exact (step2_sub (b :: rest)).cons₂ a

theorem step2_noLineWord : ∀ ts : List Tok, ∀ t ∈ step2 ts, isLineWord t = false
  | [] => by simp [step2]
  | [a] => by
      intro t ht
      unfold step2 at ht
      split_ifs at ht with h
      · simp at ht
      · rcases List.mem_singleton.mp ht with rfl
        simpa using h
  | a :: b :: rest => by
      intro t ht
      unfold step2 at ht
      split_ifs at ht with h1 h2
      · exact step2_noLineWord rest t ht
      · exact step2_noLineWord (b :: rest) t ht
      · rcases List.mem_cons.mp ht with rfl | hm
        · simpa using h1
        · exact step2_noLineWord (b :: rest) t hm

theorem step2_id : ∀ ts : List Tok, (∀ t ∈ ts, isLineWord t = false) → step2 ts = ts
  | [] => fun _ => rfl
  | [a] => fun h => by
      unfold step2
      rw [if_neg (by simp [h a (by simp)])]
  | a :: b :: rest => fun h => by
      unfold step2
      rw [if_neg (by simp [h a (by simp)])]
      rw [step2_id (b :: rest) (fun t ht => h t (List.mem_cons_of_mem a ht))]

theorem seekTok_rest_sub (p : Tok → Bool) :
    ∀ ts r, seekTok p ts = some r → r.Sublist ts
  | [] => by intro r h; simp [seekTok] at h
  | t :: rest => by
      intro r h
      unfold seekTok at h
      split_ifs at h with hp
      · injection h with h
        subst h
        exact List.sublist_cons_self t rest
      · exact (seekTok_rest_sub p rest r h).cons t

theorem seekTok_mono (p : Tok → Bool) {l1 l2 : List Tok} (hsub : l1.Sublist l2) :
    ∀ r1, seekTok p l1 = some r1 →
      ∃ r2, seekTok p l2 = some r2 ∧ r1.Sublist r2 := by
  induction hsub with
  | slnil => intro r1 h; simp [seekTok] at h
  | cons a hsub ih =>
    intro r1 h
    obtain ⟨r2, hr, hrr⟩ := ih r1 h
    unfold seekTok
    split_ifs with hp
    · exact ⟨_, rfl, hrr.trans (seekTok_rest_sub p _ r2 hr)⟩
    · exact ⟨r2, hr, hrr⟩
  | cons₂ a hsub ih =>
    intro r1 h
    unfold seekTok at h ⊢
    split_ifs at h ⊢ with hp
    · injection h with h
      subst h
      exact ⟨_, rfl, hsub⟩
    · exact ih r1 h

theorem seqMatch_mono : ∀ (ps : List (Tok → Bool)) (l1 l2 : List Tok),
    l1.Sublist l2 → seqMatch ps l1 = true → seqMatch ps l2 = true
  | [], _, _ => by intro _ _; rfl
  | p :: ps, l1, l2 => by
      intro hsub hm
      unfold seqMatch at hm ⊢
      cases hs : seekTok p l1 with
      | none => rw [hs] at hm; exact absurd hm (by simp)
      | some r1 =>
        rw [hs] at hm
        obtain ⟨r2, hr, hrr⟩ := seekTok_mono p hsub r1 hs
        rw [hr]
        exact seqMatch_mono ps r1 r2 hrr hm

theorem promoMatch_mono {l1 l2 : List Tok} (h : l1.Sublist l2) :
    promoMatch l1 = true → promoMatch l2 = true := seqMatch_mono _ l1 l2 h

theorem step3_sub (ts : List Tok) : (step3 ts).Sublist ts :=
  List.dropWhile_sublist _

theorem step4_sub (ts : List Tok) : (step4 ts).Sublist ts :=
  List.filter_sublist _

theorem step5_sub (ts : List Tok) : (step5 ts).Sublist ts := by
  unfold step5
  have h2 : (((ts.takeWhile fun t => !(isAtTok t)).reverse.dropWhile isParenTok).reverse).Sublist
      ((ts.takeWhile fun t => !(isAtTok t)).reverse.reverse) :=
    (List.dropWhile_sublist _).reverse
  rw [List.reverse_reverse] at h2
  exact h2.trans (List.takeWhile_sublist _)

theorem cleanToks_sub_step1 (ts : List Tok) : (cleanToks ts).Sublist (step1 ts) := by
  unfold cleanToks
  exact (((step5_sub _).trans (step4_sub _)).trans (step3_sub _)).trans (step2_sub _)

theorem cleanToks_sub_self (ts : List Tok) : (cleanToks ts).Sublist ts :=
  (cleanToks_sub_step1 ts).trans (step1_sub ts)

theorem cleanToks_of_promo (ts : List Tok) (hp : promoMatch ts = true) :
    cleanToks ts = [] := by
  unfold cleanToks
  rw [show step1 ts = [] from by unfold step1; rw [if_pos hp]]
  rfl

theorem cleanToks_promo (ts : List Tok) : promoMatch (cleanToks ts) = false := by
  by_cases hp : promoMatch ts = true
  · rw [cleanToks_of_promo ts hp]
    rfl
  · cases hq : promoMatch (cleanToks ts) with
    | false => rfl
    | true => exact absurd (promoMatch_mono (cleanToks_sub_self ts) hq) hp

theorem cleanToks_noLineWord (ts : List Tok) :
    ∀ t ∈ cleanToks ts, isLineWord t = false := by
  intro t ht
  unfold cleanToks at ht
  have h2 : t ∈ step2 (step1 ts) :=
    ((((step5_sub _).trans (step4_sub _)).trans (step3_sub _)).subset) ht
  exact step2_noLineWord (step1 ts) t h2

theorem cleanToks_noPunct (ts : List Tok) :
    ∀ t ∈ cleanToks ts, punctOnly t = false := by
  intro t ht
  unfold cleanToks at ht
  have h4 : t ∈ step4 (step3 (step2 (step1 ts))) := (step5_sub _).subset ht
  have h5 := List.of_mem_filter h4
  simpa using h5

theorem cleanToks_noAt (ts : List Tok) :
    ∀ t ∈ cleanToks ts, isAtTok t = false := by
  intro t ht
  unfold cleanToks step5 at ht
  rw [List.mem_reverse] at ht
  have h1 := (List.dropWhile_sublist isParenTok).subset ht
  rw [List.mem_reverse] at h1
  have h2 := List.mem_takeWhile_imp h1
  simpa using h2

theorem dropWhile_head_false (p : Tok → Bool) :
    ∀ l : List Tok, ∀ h, (l.dropWhile p).head? = some h → p h = false
  | [] => by intro h hh; simp at hh
  | a :: rest => by
      intro h hh
      by_cases hp : p a = true
      · rw [List.dropWhile_cons_of_pos hp] at hh
        exact dropWhile_head_false p rest h hh
      · rw [List.dropWhile_cons_of_neg hp] at hh
        injection hh with hh
        subst hh
        simpa using hp

theorem cleanToks_last (ts : List Tok) :
    ∀ h, (cleanToks ts).getLast? = some h → isParenTok h = false := by
  intro h hh
  unfold cleanToks step5 at hh
  rw [List.getLast?_reverse] at hh
  exact dropWhile_head_false _ _ h hh

theorem prefix_head_eq {l1 l2 : List Tok} (h : List.IsPrefix l1 l2) :
    ∀ a, l1.head? = some a → l2.head? = some a := by
  obtain ⟨t, ht⟩ := h
  intro a ha
  rw [← ht]
  cases l1 with
  | nil => simp at ha
  | cons x r => simpa using ha

theorem step5_pre (ts : List Tok) :
    List.IsPrefix (step5 ts) (ts.takeWhile (fun t => !(isAtTok t))) := by
  unfold step5
  have hsuf : List.IsSuffix
      ((ts.takeWhile (fun t => !(isAtTok t))).reverse.dropWhile isParenTok)
      ((ts.takeWhile (fun t => !(isAtTok t))).reverse) := List.dropWhile_suffix _
  have hpre := List.reverse_prefix.mpr hsuf
  rwa [List.reverse_reverse] at hpre

theorem cleanToks_head (ts : List Tok) :
    ∀ h, (cleanToks ts).head? = some h → (isCodeTok h || punctOnly h) = false := by
  intro h hh
  unfold cleanToks at hh
  generalize hX2 : step2 (step1 ts) = X2 at hh
  have hT := prefix_head_eq (step5_pre (step4 (step3 X2))) h hh
  have hX4head : (step4 (step3 X2)).head? = some h := by
    cases hx : step4 (step3 X2) with
    | nil => rw [hx] at hT; simp at hT
    | cons a r =>
      rw [hx] at hT
      by_cases hat : isAtTok a = true
      · rw [List.takeWhile_cons_of_neg (by simp [hat])] at hT
        simp at hT
      · rw [List.takeWhile_cons_of_pos (by simp [hat])] at hT
        simp at hT
        simp [hT]
  cases hx3 : step3 X2 with
  | nil =>
    rw [hx3] at hX4head
    simp [step4] at hX4head
  | cons a r =>
    have pa : (isCodeTok a || punctOnly a) = false := by
      apply dropWhile_head_false (fun t => isCodeTok t || punctOnly t) X2 a
      rw [show X2.dropWhile (fun t => isCodeTok t || punctOnly t) = step3 X2 from rfl,
        hx3]
      rfl
    have hpa2 : punctOnly a = false := by
      rcases Bool.or_eq_false_iff.mp pa with ⟨_, h2⟩
      exact h2
    have hstep4 : step4 (step3 X2) = a :: step4 r := by
      rw [hx3]
      unfold step4
      rw [List.filter_cons_of_pos (by simp [hpa2])]
    rw [hstep4] at hX4head
    simp at hX4head
    rw [← hX4head]
    exact pa

theorem cleanToks_id (ts : List Tok) (hc : CanonToks ts) : cleanToks ts = ts := by
  obtain ⟨h1, h2, h3, h4, h5, h6⟩ := hc
  have e1 : step1 ts = ts := by
    unfold step1
    rw [if_neg (by simp [h1])]
  have e2 : step2 ts = ts := step2_id ts h2
  have e3 : step3 ts = ts := by
    cases ts with
    | nil => rfl
    | cons a rest =>
      unfold step3
      exact List.dropWhile_cons_of_neg (by simp [h3 a rfl])
  have e4 : step4 ts = ts := List.filter_eq_self.mpr (fun a ha => by simp [h4 a ha])
  have e5 : step5 ts = ts := by
    unfold step5
    rw [List.takeWhile_eq_self_iff.mpr (fun t ht => by simp [h5 t ht])]
    cases hrev : ts.reverse with
    | nil =>
      have hnil : ts = [] := by
        cases ts with
        | nil => rfl
        | cons x r => simp at hrev
      subst hnil
      rfl
    | cons a r =>
      have hlast : ts.getLast? = some a := by
        rw [← List.head?_reverse, hrev]
        rfl
      have hpar : ¬ isParenTok a = true := by simp [h6 a hlast]
      rw [List.dropWhile_cons_of_neg hpar, ← hrev, List.reverse_reverse]
  rw [show cleanToks ts = step5 (step4 (step3 (step2 (step1 ts)))) from rfl,
    e1, e2, e3, e4, e5]

theorem map_lowCh_twice (l : List Char) : (l.map lowCh).map lowCh = l.map lowCh := by
  induction l with
  | nil => rfl
  | cons c r ih => simp [lowCh_lowCh, ih]

theorem lowTok_titleCase (t : Tok) : lowTok (titleCaseTok t) = lowTok t := by
  cases t with
  | nil => rfl
  | cons c r =>
    show lowCh (upCh c) :: (r.map lowCh).map lowCh = lowCh c :: r.map lowCh
    rw [lowCh_upCh, map_lowCh_twice]

theorem titleCase_titleCase (t : Tok) :
    titleCaseTok (titleCaseTok t) = titleCaseTok t := by
  cases t with
  | nil => rfl
  | cons c r =>
    show upCh (upCh c) :: (r.map lowCh).map lowCh = upCh c :: r.map lowCh
    rw [upCh_upCh, map_lowCh_twice]

theorem map_titleCase_idem (l : List Tok) :
    (l.map titleCaseTok).map titleCaseTok = l.map titleCaseTok := by
  induction l with
  | nil => rfl
  | cons t r ih => simp [titleCase_titleCase, ih]

theorem titleCase_length (t : Tok) : (titleCaseTok t).length = t.length := by
  cases t with
  | nil => rfl
  | cons c r => simp [titleCaseTok]

theorem titleCase_isEmpty (t : Tok) : (titleCaseTok t).isEmpty = t.isEmpty := by
  cases t with
  | nil => rfl
  | cons c r => rfl

theorem all_map_inv (l : List Char) (f : Char → Char) (p : Char → Bool)
    (h : ∀ c, p (f c) = p c) : (l.map f).all p = l.all p := by
  induction l with
  | nil => rfl
  | cons c r ih => simp only [List.map_cons, List.all_cons, h c, ih]

theorem allDigits_titleCase (t : Tok) : allDigits (titleCaseTok t) = allDigits t := by
  cases t with
  | nil => rfl
  | cons c r =>
    show (isDigitCh (upCh c) && (r.map lowCh).all isDigitCh)
      = (isDigitCh c && r.all isDigitCh)
    rw [isDigitCh_upCh, all_map_inv r lowCh isDigitCh isDigitCh_lowCh]

theorem punctOnly_titleCase (t : Tok) : punctOnly (titleCaseTok t) = punctOnly t := by
  cases t with
  | nil => rfl
  | cons c r =>
    show ((!(isAlnumCh (upCh c))) && (r.map lowCh).all (fun c => !(isAlnumCh c)))
      = ((!(isAlnumCh c)) && r.all (fun c => !(isAlnumCh c)))
    rw [isAlnumCh_upCh,
      all_map_inv r lowCh (fun c => !(isAlnumCh c)) (fun c => by simp [isAlnumCh_lowCh])]

theorem upCh_beq_special (c k : Char) (hk : isLetterCh k = false) :
    (upCh c == k) = (c == k) := by
  by_cases h : c = k
  · subst h
    rw [upCh_no_pair c (fun p hp => (not_letter_table c hk p hp).1)]
  · have h2 : ¬ upCh c = k := fun hh => h ((upCh_eq_special c k hk).mp hh)
    simp [h, h2]

theorem lowCh_beq_special (c k : Char) (hk : isLetterCh k = false) :
    (lowCh c == k) = (c == k) := by
  by_cases h : c = k
  · subst h
    rw [lowCh_no_pair c (fun p hp => (not_letter_table c hk p hp).2)]
  · have h2 : ¬ lowCh c = k := fun hh => h ((lowCh_eq_special c k hk).mp hh)
    simp [h, h2]

theorem head_beq_titleCase (t : Tok) (k : Char) (hk : isLetterCh k = false) :
    ((titleCaseTok t).head? == some k) = (t.head? == some k) := by
  cases t with
  | nil => rfl
  | cons c r =>
    show (upCh c == k) = (c == k)
    exact upCh_beq_special c k hk

theorem last_beq_titleCase (t : Tok) (k : Char) (hk : isLetterCh k = false) :
    ((titleCaseTok t).getLast? == some k) = (t.getLast? == some k) := by
  cases t with
  | nil => rfl
  | cons c r =>
    cases r with
    | nil =>
      show (upCh c == k) = (c == k)
      exact upCh_beq_special c k hk
    | cons d r2 =>
      show ((upCh c :: lowCh d :: r2.map lowCh).getLast? == some k)
        = ((c :: d :: r2).getLast? == some k)
      rw [List.getLast?_cons_cons, List.getLast?_cons_cons,
        show (lowCh d :: r2.map lowCh) = (d :: r2).map lowCh from rfl,
        List.getLast?_map]
      cases hg : (d :: r2).getLast? with
      | none => rfl
      | some x =>
        show (lowCh x == k) = (x == k)
        exact lowCh_beq_special x k hk

theorem isAtTok_titleCase (t : Tok) : isAtTok (titleCaseTok t) = isAtTok t :=
  head_beq_titleCase t '@' (by decide)

theorem isParenTok_titleCase (t : Tok) :
    isParenTok (titleCaseTok t) = isParenTok t := by
  unfold isParenTok
  rw [head_beq_titleCase t '(' (by decide), last_beq_titleCase t ')' (by decide)]

theorem map_dropLast (f : Char → Char) :
    ∀ l : List Char, (l.map f).dropLast = l.dropLast.map f
  | [] => rfl
  | [a] => rfl
  | a :: b :: r => by
      show f a :: ((b :: r).map f).dropLast = f a :: ((b :: r).dropLast).map f
      rw [map_dropLast f (b :: r)]

theorem dropLast_titleCase (t : Tok) :
    (titleCaseTok t).dropLast = titleCaseTok t.dropLast := by
  cases t with
  | nil => rfl
  | cons c r =>
    cases r with
    | nil => rfl
    | cons d r2 =>
      show upCh c :: ((d :: r2).map lowCh).dropLast
        = upCh c :: ((d :: r2).dropLast).map lowCh
      rw [map_dropLast lowCh (d :: r2)]

theorem isCodeTok_titleCase (t : Tok) : isCodeTok (titleCaseTok t) = isCodeTok t := by
  unfold isCodeTok
  rw [last_beq_titleCase t ':' (by decide)]
  by_cases hl : (t.getLast? == some ':') = true
  · rw [if_pos hl, if_pos hl, dropLast_titleCase, allDigits_titleCase, titleCase_length]
  · rw [if_neg hl, if_neg hl, allDigits_titleCase, titleCase_length]

theorem isLineWord_titleCase (t : Tok) :
    isLineWord (titleCaseTok t) = isLineWord t := by
  unfold isLineWord
  rw [lowTok_titleCase]

theorem pBuy_titleCase (t : Tok) : pBuy (titleCaseTok t) = pBuy t := by
  unfold pBuy
  rw [lowTok_titleCase]

theorem pGet_titleCase (t : Tok) : pGet (titleCaseTok t) = pGet t := by
  unfold pGet
  rw [lowTok_titleCase]

theorem pNum_titleCase (t : Tok) : pNum (titleCaseTok t) = pNum t := by
  unfold pNum
  rw [lowTok_titleCase, allDigits_titleCase, titleCase_isEmpty]

theorem goodTok_titleCase {t : Tok} (h : GoodTok t) : GoodTok (titleCaseTok t) := by
  obtain ⟨hne, hwf⟩ := h
  cases t with
  | nil => exact absurd rfl hne
  | cons c r =>
    refine ⟨by simp [titleCaseTok], ?_⟩
    intro d hd
    simp only [titleCaseTok] at hd
    rcases List.mem_cons.mp hd with rfl | hm
    · rw [isWsCh_upCh]
      exact hwf c (by simp)
    · obtain ⟨u, hu, rfl⟩ := List.mem_map.mp hm
      rw [isWsCh_lowCh]
      exact hwf u (by simp [hu])

theorem seekTok_map_titleCase (p : Tok → Bool)
    (hp : ∀ t, p (titleCaseTok t) = p t) :
    ∀ ts : List Tok, seekTok p (ts.map titleCaseTok)
      = (seekTok p ts).map (List.map titleCaseTok)
  | [] => rfl
  | t :: rest => by
      simp only [List.map_cons]
      unfold seekTok
      rw [hp t]
      split_ifs
      · rfl
      · exact seekTok_map_titleCase p hp rest

theorem seqMatch_map_titleCase : ∀ ps : List (Tok → Bool),
    (∀ p ∈ ps, ∀ t, p (titleCaseTok t) = p t) →
    ∀ ts : List Tok, seqMatch ps (ts.map titleCaseTok) = seqMatch ps ts
  | [] => fun _ _ => rfl
  | p :: ps => fun h ts => by
      unfold seqMatch
      rw [seekTok_map_titleCase p (h p (by simp))]
      cases hs : seekTok p ts with
      | none => rfl
      | some r =>
        simpa using seqMatch_map_titleCase ps (fun q hq t => h q (by simp [hq]) t) r

theorem promoMatch_map_titleCase (ts : List Tok) :
    promoMatch (ts.map titleCaseTok) = promoMatch ts := by
  unfold promoMatch
  apply seqMatch_map_titleCase
  intro p hp t
  rcases List.mem_cons.mp hp with rfl | hp2
  · exact pBuy_titleCase t
  rcases List.mem_cons.mp hp2 with rfl | hp3
  · exact pNum_titleCase t
  rcases List.mem_cons.mp hp3 with rfl | hp4
  · exact pGet_titleCase t
  rcases List.mem_cons.mp hp4 with rfl | hp5
  · exact pNum_titleCase t
  · simp at hp5

theorem canon_titleCase (ts : List Tok) (hc : CanonToks ts) :
    CanonToks (ts.map titleCaseTok) := by
  obtain ⟨h1, h2, h3, h4, h5, h6⟩ := hc
  refine ⟨?_, ?_, ?_, ?_, ?_, ?_⟩
  · rw [promoMatch_map_titleCase]
    exact h1
  · intro t ht
    obtain ⟨u, hu, rfl⟩ := List.mem_map.mp ht
    rw [isLineWord_titleCase]
    exact h2 u hu
  · intro h hh
    rw [List.head?_map] at hh
    cases hu : ts.head? with
    | none => rw [hu] at hh; simp at hh
    | some u =>
      rw [hu] at hh
      simp at hh
      rw [← hh, isCodeTok_titleCase, punctOnly_titleCase]
      exact h3 u hu
  · intro t ht
    obtain ⟨u, hu, rfl⟩ := List.mem_map.mp ht
    rw [punctOnly_titleCase]
    exact h4 u hu
  · intro t ht
    obtain ⟨u, hu, rfl⟩ := List.mem_map.mp ht
    rw [isAtTok_titleCase]
    exact h5 u hu
  · intro h hh
    rw [List.getLast?_map] at hh
    cases hu : ts.getLast? with
    | none => rw [hu] at hh; simp at hh
    | some u =>
      rw [hu] at hh
      simp at hh
      rw [← hh, isParenTok_titleCase]
      exact h6 u hu

theorem cleanToks_canon (ts : List Tok) : CanonToks (cleanToks ts) :=
  ⟨cleanToks_promo ts, cleanToks_noLineWord ts, cleanToks_head ts,
   cleanToks_noPunct ts, cleanToks_noAt ts, cleanToks_last ts⟩

/-- C7: the Name Cleaner is idempotent — for every input string,
`clean_item_name (clean_item_name x) = clean_item_name x`, where
`clean_item_name` is the ordered six-step pipeline (promotional-phrase
stripping, line-reference stripping, item-code stripping, artifact
collapsing, trailing-measurement stripping, length check and
title-casing). -/
theorem clean_item_name_idempotent (x : String) :
    clean_item_name (clean_item_name x) = clean_item_name x := by
  by_cases hlen :
      (joinToks ((cleanToks (splitWs x.data)).map titleCaseTok)).length < 3
  · have h1 : clean_item_name x = "" := by
      unfold clean_item_name
      rw [if_pos hlen]
    rw [h1]
    rfl
  · have h1 : clean_item_name x
        = ⟨joinToks ((cleanToks (splitWs x.data)).map titleCaseTok)⟩ := by
      unfold clean_item_name
      rw [if_neg hlen]
    rw [h1]
    have hgood : ∀ t ∈ (cleanToks (splitWs x.data)).map titleCaseTok, GoodTok t := by
      intro t ht
      obtain ⟨u, hu, rfl⟩ := List.mem_map.mp ht
      exact goodTok_titleCase (splitWs_good x.data u ((cleanToks_sub_self _).subset hu))
    have hsplit : splitWs (joinToks ((cleanToks (splitWs x.data)).map titleCaseTok))
        = (cleanToks (splitWs x.data)).map titleCaseTok := splitWs_join _ hgood
    have hfix : cleanToks ((cleanToks (splitWs x.data)).map titleCaseTok)
        = (cleanToks (splitWs x.data)).map titleCaseTok :=
      cleanToks_id _ (canon_titleCase _ (cleanToks_canon _))
    unfold clean_item_name
    rw [show (⟨joinToks ((cleanToks (splitWs x.data)).map titleCaseTok)⟩ : String).data
        = joinToks ((cleanToks (splitWs x.data)).map titleCaseTok) from rfl]
    rw [hsplit, hfix, map_titleCase_idem]
    rw [if_neg hlen]
